import Mathlib

/-!
Verification of the grid coin-merge game engine (`src/main.ts`).

The shallow embedding below translates the game's mutable module state
(`playerCell`, `playerHeldCoin`, `cellValues`, `modifiedCacheState`) into an
explicit `GameState` record, and each stateful function into a state-passing
Lean function.  JavaScript `Map` objects keyed by strings are modelled as
association lists with `Map.get`/`Map.set` semantics (`mapGet`/`mapSet`:
`set` updates an existing key in place, otherwise appends).  Numbers are
modelled exactly (integers as `Int`/`Nat`, continuous coordinates as `ℚ`);
the JS float arithmetic of the addressing helpers is idealized as exact
rational arithmetic.
-/

/- ------------------------------------------------------
   CONSTANTS (src/main.ts lines 18-26)
------------------------------------------------------ -/

def TILE_DEGREES : ℚ := 1 / 10000

def CACHE_SPAWN_PROBABILITY : ℚ := 1 / 10

def COIN_VALUES : List Nat := [1, 2, 4, 8, 16, 32, 64, 128]

/-- Classroom latitude `36.997936938057016`, modelled as the exact decimal. -/
def CLASSROOM_LAT : ℚ := 36997936938057016 / 1000000000000000

/-- Classroom longitude `-122.05703507501151`, modelled as the exact decimal. -/
def CLASSROOM_LNG : ℚ := -12205703507501151 / 100000000000000

/- ------------------------------------------------------
   HELPERS (src/main.ts lines 42-66)
------------------------------------------------------ -/

/-- `keyOf(i, j)` — the template string `` `${i},${j}` ``. -/
def keyOf (i j : Int) : String := toString i ++ "," ++ toString j

/-- `cellToLatLng({i, j})` — grid cell to the lat/lng of its center. -/
def cellToLatLng (i j : Int) : ℚ × ℚ :=
  (i * TILE_DEGREES + TILE_DEGREES / 2, j * TILE_DEGREES + TILE_DEGREES / 2)

/-- `latLngToCell(latlng)` — `Math.floor` of each coordinate over the tile
size; `Math.floor` rounds toward negative infinity, as does `Int.floor`. -/
def latLngToCell (lat lng : ℚ) : Int × Int :=
  (⌊lat / TILE_DEGREES⌋, ⌊lng / TILE_DEGREES⌋)

/-- Modelled from the spec: the repository imports `luck` from `./_luck.ts`,
which is not part of the given sources.  Per the spec (§4.2) it "hashes the
cell identifier (plus a fixed salt) into [0,1)" and is a pure function of its
string argument.  We model it as a fixed polynomial string hash reduced
modulo `2^32`, scaled into `[0,1)`. -/
def luckHash (s : String) : Nat :=
  s.foldl (fun h c => (h * 31 + c.toNat) % 4294967296) 7

/-- Modelled from the spec: `luck(s)` as a deterministic value in `[0,1)`. -/
def luck (s : String) : ℚ := (luckHash s : ℚ) / 4294967296

/-- The string `[i, j, "initialValue"].toString()`, i.e. the JS array
joined with commas: `` `${i},${j},initialValue` ``. -/
def luckString (i j : Int) : String :=
  toString i ++ "," ++ toString j ++ "," ++ "initialValue"

/-- `shouldSpawnCache(i, j)` (src/main.ts line 59). -/
def shouldSpawnCache (i j : Int) : Bool :=
  decide (luck (luckString i j) < CACHE_SPAWN_PROBABILITY)

/-- `pickCacheValue(i, j)` (src/main.ts lines 63-66).  The index
`Math.floor(raw * 1_000_000) % COIN_VALUES.length` is always in range
(`raw ∈ [0,1)`), so `getD`'s default is never used. -/
def pickCacheValue (i j : Int) : Nat :=
  let raw := luck (luckString i j)
  COIN_VALUES.getD ((Int.floor (raw * 1000000)).toNat % COIN_VALUES.length) 0

/-- The value `pickCacheValue` produces, as a function of the map key
`keyOf i j`; `pickCacheValue` factors through it because the luck input
string is exactly `keyOf i j ++ ",initialValue"`. -/
def pickValueOfKey (k : String) : Nat :=
  COIN_VALUES.getD
    ((Int.floor (luck (k ++ ",initialValue") * 1000000)).toNat %
      COIN_VALUES.length) 0

/- ------------------------------------------------------
   JS Map model
------------------------------------------------------ -/

/-- `Map.get`: value of the first (unique) entry with the given key. -/
def mapGet {α : Type} (m : List (String × α)) (k : String) : Option α :=
  match m with
  | [] => none
  | p :: rest => if p.1 = k then some p.2 else mapGet rest k

/-- `Map.set`: update an existing key in place (preserving insertion order),
otherwise append the new entry at the end. -/
def mapSet {α : Type} (m : List (String × α)) (k : String) (v : α) :
    List (String × α) :=
  match m with
  | [] => [(k, v)]
  | p :: rest => if p.1 = k then (k, v) :: rest else p :: mapSet rest k v

/- ------------------------------------------------------
   GAME STATE (src/main.ts lines 71-72, 182-183)
------------------------------------------------------ -/

/-- The `{ pickedUp: boolean }` record stored in `modifiedCacheState`. -/
structure CacheRecord where
  pickedUp : Bool
deriving DecidableEq, Repr

/-- The mutable module state of `src/main.ts`: `playerCell` (split into its
two fields), `playerHeldCoin`, the memoization map `cellValues` and the
overlay map `modifiedCacheState`. -/
structure GameState where
  playerI : Int
  playerJ : Int
  playerHeldCoin : Option Int
  cellValues : List (String × Nat)
  modifiedCacheState : List (String × CacheRecord)
deriving Repr

/-- `getCellValue(i, j)` (src/main.ts lines 75-79): memoized lookup that
inserts `pickCacheValue(i, j)` on first access.  The trailing `!` assertion
of the source is modelled by `getD 0` (the lookup always succeeds). -/
def getCellValue (s : GameState) (i j : Int) : Nat × GameState :=
  let key := keyOf i j
  let s :=
    if (mapGet s.cellValues key).isSome then s
    else { s with cellValues := mapSet s.cellValues key (pickCacheValue i j) }
  ((mapGet s.cellValues key).getD 0, s)

/-- The value computed and displayed by `updateCircleTooltip` (src/main.ts
lines 368-371): `0` for a picked-up cell, else `getCellValue` (which may
memoize, hence the state in the result). -/
def updateCircleTooltip (s : GameState) (i j : Int) : Nat × GameState :=
  let pickedUp :=
    ((mapGet s.modifiedCacheState (keyOf i j)).map
      (fun r => r.pickedUp)).getD false
  if pickedUp then (0, s) else getCellValue s i j

/-- The three observable outcomes of a pickup attempt (spec §4.3 vocabulary
for the three branches of `handleCachePickup`). -/
inductive Outcome where
  | PickedUp (value : Nat)
  | Merged (newValue : Int)
  | Rejected
deriving DecidableEq, Repr

/-- `handleCachePickup` (src/main.ts lines 397-426).  Returns the outcome
(which branch ran), whether the win alert fired
(`if (playerHeldCoin === 256) alert(...)`, line 418), and the new state.
The trailing `updateCircleTooltip` call of the source does not change the
modelled state: in the success branches the cell is picked up, and in the
rejected branch `getCellValue` was already memoized at line 400. -/
def handleCachePickup (s : GameState) (i j : Int) :
    Outcome × Bool × GameState :=
  let key := keyOf i j
  let pickedUp :=
    ((mapGet s.modifiedCacheState key).map (fun r => r.pickedUp)).getD false
  let res := if pickedUp then ((0 : Nat), s) else getCellValue s i j
  let currentValue := res.1
  let s := res.2
  match s.playerHeldCoin with
  | none =>
      (Outcome.PickedUp currentValue, false,
        { s with
          playerHeldCoin := some (currentValue : Int),
          modifiedCacheState := mapSet s.modifiedCacheState key ⟨true⟩ })
  | some held =>
      if held = (currentValue : Int) then
        (Outcome.Merged (held * 2), held * 2 = 256,
          { s with
            playerHeldCoin := some (held * 2),
            modifiedCacheState := mapSet s.modifiedCacheState key ⟨true⟩ })
      else
        (Outcome.Rejected, false, s)

/-- `GridPlayerMovement.moveBy` (src/main.ts lines 212-224), restricted to
its effect on the modelled state (marker/pan are rendering). -/
def moveBy (s : GameState) (di dj : Int) : GameState :=
  { s with playerI := s.playerI + di, playerJ := s.playerJ + dj }

/-- `GridPlayerMovement.moveToLatLng` (src/main.ts lines 227-237). -/
def moveToLatLng (s : GameState) (lat lng : ℚ) : GameState :=
  { s with
    playerI := (latLngToCell lat lng).1,
    playerJ := (latLngToCell lat lng).2 }

/-- `startNewGame` (src/main.ts lines 340-353): reset player and overlay;
the memoization map `cellValues` is not cleared by the source. -/
def startNewGame (s : GameState) : GameState :=
  { s with
    playerI := (latLngToCell CLASSROOM_LAT CLASSROOM_LNG).1,
    playerJ := (latLngToCell CLASSROOM_LAT CLASSROOM_LNG).2,
    playerHeldCoin := some 1,
    modifiedCacheState := [] }

/-- The memoization effect of rendering one cell (`createCache` /
`updateCircleTooltip` inside `updateVisibleCaches` call `getCellValue`). -/
def touchCell (s : GameState) (c : Int × Int) : GameState :=
  (getCellValue s c.1 c.2).2

/-- The state effect of one `updateVisibleCaches` run (src/main.ts lines
499-542): it only memoizes default values for some set of cells — the
overlay `modifiedCacheState` is never written there.  The concrete set of
cells depends on the Leaflet viewport, so it is an arbitrary list here. -/
def touchCells (s : GameState) (cs : List (Int × Int)) : GameState :=
  cs.foldl touchCell s

/-- The initial state (src/main.ts lines 182-183): the player starts at the
classroom cell holding a coin of value 1, with both maps empty. -/
def initialState : GameState :=
  { playerI := (latLngToCell CLASSROOM_LAT CLASSROOM_LNG).1
    playerJ := (latLngToCell CLASSROOM_LAT CLASSROOM_LNG).2
    playerHeldCoin := some 1
    cellValues := []
    modifiedCacheState := [] }

/- ------------------------------------------------------
   Step relation / reachability
------------------------------------------------------ -/

/-- One user-driven state transition of the running game: a pickup attempt,
a discrete move, an absolute (geolocation) move, a visible-cache
recomputation, or a full "new game" reset. -/
inductive Step : GameState → GameState → Prop
  | pickup (s : GameState) (i j : Int) : Step s (handleCachePickup s i j).2.2
  | move (s : GameState) (di dj : Int) : Step s (moveBy s di dj)
  | moveTo (s : GameState) (lat lng : ℚ) : Step s (moveToLatLng s lat lng)
  | touch (s : GameState) (cs : List (Int × Int)) : Step s (touchCells s cs)
  | reset (s : GameState) : Step s (startNewGame s)

/-- The transitions of an ongoing session: everything except the explicit
"new game" reset (movement, panning, visible-cache recomputation, and
further pickups). -/
inductive SessionStep : GameState → GameState → Prop
  | pickup (s : GameState) (i j : Int) :
      SessionStep s (handleCachePickup s i j).2.2
  | move (s : GameState) (di dj : Int) : SessionStep s (moveBy s di dj)
  | moveTo (s : GameState) (lat lng : ℚ) :
      SessionStep s (moveToLatLng s lat lng)
  | touch (s : GameState) (cs : List (Int × Int)) :
      SessionStep s (touchCells s cs)

/-- A state is reachable if some sequence of steps leads to it from the
initial state. -/
def Reachable (s : GameState) : Prop :=
  Relation.ReflTransGen Step initialState s

/- ------------------------------------------------------
   PERSISTENCE (src/main.ts lines 85-111)

   `JSON.stringify` / `JSON.parse` are modelled at the level of the JSON
   value: a stored string either fails to parse or denotes a `Json` value,
   and stringify-then-parse of the values this program writes (objects,
   arrays, strings, booleans, null and integer numbers) is the identity.
------------------------------------------------------ -/

/-- JSON values.  Numbers are integers: the program only ever stores
integer coordinates and power-of-two coin values. -/
inductive Json where
  | null
  | bool (b : Bool)
  | num (n : Int)
  | str (s : String)
  | arr (elems : List Json)
  | obj (fields : List (String × Json))
deriving Repr

/-- A JavaScript runtime value during `loadGameState`: a JSON value or
`undefined` (the result of reading an absent property). -/
inductive JsVal where
  | undef
  | ofJson (j : Json)
deriving Repr

/-- Property lookup in a JSON object's field list (first match). -/
def jsonLookup (fields : List (String × Json)) (name : String) :
    Option Json :=
  match fields with
  | [] => none
  | p :: rest => if p.1 = name then some p.2 else jsonLookup rest name

/-- JS property read `v.name` with exception semantics: reading a property
of `undefined` or `null` throws (`none`); objects yield the field or
`undefined`; other primitives and arrays yield `undefined` (no such
property is accessed on them here). -/
def jsMember (v : JsVal) (name : String) : Option JsVal :=
  match v with
  | JsVal.undef => none
  | JsVal.ofJson Json.null => none
  | JsVal.ofJson (Json.obj fields) =>
      some (match jsonLookup fields name with
        | some j => JsVal.ofJson j
        | none => JsVal.undef)
  | JsVal.ofJson _ => some JsVal.undef

/-- Element `n` of a JS array destructuring: the element, or `undefined`
past the end. -/
def jsElem (l : List Json) (n : Nat) : JsVal :=
  match l.get? n with
  | some e => JsVal.ofJson e
  | none => JsVal.undef

/-- Character `n` of a JS string destructuring (strings are iterable):
a one-character string, or `undefined` past the end. -/
def jsChar (s : String) (n : Nat) : JsVal :=
  match s.toList.get? n with
  | some c => JsVal.ofJson (Json.str (String.mk [c]))
  | none => JsVal.undef

/-- The destructuring `const [key, value] = e` of one overlay entry:
arrays and strings are iterable; any other value throws (`none`). -/
def destructure2 (v : JsVal) : Option (JsVal × JsVal) :=
  match v with
  | JsVal.ofJson (Json.arr l) => some (jsElem l 0, jsElem l 1)
  | JsVal.ofJson (Json.str s) => some (jsChar s 0, jsChar s 1)
  | _ => none

/-- JS `Map` key equality (SameValueZero) between the values that can occur
as restored overlay keys.  Primitives compare by value; objects and arrays
compare by reference, and two distinct nodes of a parse result are distinct
references, so they are never equal here. -/
def jsKeyEq (a b : JsVal) : Bool :=
  match a, b with
  | JsVal.undef, JsVal.undef => true
  | JsVal.ofJson Json.null, JsVal.ofJson Json.null => true
  | JsVal.ofJson (Json.bool x), JsVal.ofJson (Json.bool y) => x = y
  | JsVal.ofJson (Json.num x), JsVal.ofJson (Json.num y) => x = y
  | JsVal.ofJson (Json.str x), JsVal.ofJson (Json.str y) => x = y
  | _, _ => false

/-- `Map.set` on the restored overlay map, with JS key equality. -/
def jsMapSet (m : List (JsVal × JsVal)) (k v : JsVal) :
    List (JsVal × JsVal) :=
  match m with
  | [] => [(k, v)]
  | p :: rest =>
      if jsKeyEq p.1 k then (k, v) :: rest else p :: jsMapSet rest k v

/-- The `state.modifiedCacheState.forEach(([key, value]) => set(key, value))`
loop: entries are restored in order; a non-iterable entry throws, which the
surrounding `try` catches, keeping the entries restored so far. -/
def restoreEntries (acc : List (JsVal × JsVal)) (entries : List Json) :
    List (JsVal × JsVal) :=
  match entries with
  | [] => acc
  | e :: rest =>
      match destructure2 (JsVal.ofJson e) with
      | none => acc
      | some (k, v) => restoreEntries (jsMapSet acc k v) rest

/-- The JS-level view of the state mutated by `loadGameState`: the fields it
assigns can transiently hold any runtime value when the payload is
malformed, so they are `JsVal` here. -/
structure JsState where
  playerI : JsVal
  playerJ : JsVal
  playerHeldCoin : JsVal
  modifiedCacheState : List (JsVal × JsVal)
deriving Repr

/-- The JS-level view of a (well-typed) `GameState`'s persisted fields. -/
def toJsState (s : GameState) : JsState :=
  { playerI := JsVal.ofJson (Json.num s.playerI)
    playerJ := JsVal.ofJson (Json.num s.playerJ)
    playerHeldCoin :=
      match s.playerHeldCoin with
      | none => JsVal.ofJson Json.null
      | some n => JsVal.ofJson (Json.num n)
    modifiedCacheState :=
      s.modifiedCacheState.map (fun p =>
        (JsVal.ofJson (Json.str p.1),
         JsVal.ofJson (Json.obj [("pickedUp", Json.bool p.2.pickedUp)]))) }

/-- `saveGameState` (src/main.ts lines 85-92): the JSON value stringified
into `localStorage` under the key `"gameState"`:
`{ playerCell: {i, j}, playerHeldCoin, modifiedCacheState: entries }`. -/
def saveGameState (s : GameState) : Json :=
  Json.obj
    [("playerCell",
        Json.obj [("i", Json.num s.playerI), ("j", Json.num s.playerJ)]),
     ("playerHeldCoin",
        match s.playerHeldCoin with
        | none => Json.null
        | some n => Json.num n),
     ("modifiedCacheState",
        Json.arr (s.modifiedCacheState.map (fun p =>
          Json.arr [Json.str p.1,
                    Json.obj [("pickedUp", Json.bool p.2.pickedUp)]])))]

/-- The body of `loadGameState` after a successful `JSON.parse`
(src/main.ts lines 99-107), with JS exception semantics: each property read
may throw, and a thrown error is caught by the surrounding `try`, keeping
every assignment that already ran. -/
def loadFromJson (t : JsState) (state : JsVal) : JsState :=
  match jsMember state "playerCell" with
  | none => t
  | some pc1 =>
    match jsMember pc1 "i" with
    | none => t
    | some iv =>
      let t1 := { t with playerI := iv }
      match jsMember state "playerCell" with
      | none => t1
      | some pc2 =>
        match jsMember pc2 "j" with
        | none => t1
        | some jv =>
          let t2 := { t1 with playerJ := jv }
          match jsMember state "playerHeldCoin" with
          | none => t2
          | some hv =>
            let t3 := { t2 with playerHeldCoin := hv }
            let t4 := { t3 with modifiedCacheState := [] }
            match jsMember state "modifiedCacheState" with
            | none => t4
            | some mv =>
              match mv with
              | JsVal.ofJson (Json.arr entries) =>
                  { t4 with modifiedCacheState := restoreEntries [] entries }
              | _ => t4

/-- `loadGameState` (src/main.ts lines 95-111).  The stored payload is
`none` when no item is stored, `some none` when the stored string fails
`JSON.parse` (the throw is caught before any assignment), and
`some (some j)` when it parses to the JSON value `j`. -/
def loadGameState (t : JsState) (saved : Option (Option Json)) : JsState :=
  match saved with
  | none => t
  | some none => t
  | some (some j) => loadFromJson t (JsVal.ofJson j)

/- ------------------------------------------------------
   Event traces (for the win-report property)
------------------------------------------------------ -/

/-- One user event in a session: a pickup attempt on a cell, or a move. -/
inductive Ev where
  | interact (i j : Int)
  | move (di dj : Int)

/-- Run one event: the pickup outcome (if any), whether the win alert
fired, and the next state. -/
def stepEv (s : GameState) (e : Ev) : Option Outcome × Bool × GameState :=
  match e with
  | Ev.interact i j =>
      let r := handleCachePickup s i j
      (some r.1, r.2.1, r.2.2)
  | Ev.move di dj => (none, false, moveBy s di dj)

/-- Run a list of events, recording each event's outcome and win flag. -/
def runEv (s : GameState) : List Ev → List (Option Outcome × Bool) × GameState
  | [] => ([], s)
  | e :: es =>
      let r := stepEv s e
      let rest := runEv r.2.2 es
      ((r.1, r.2.1) :: rest.1, rest.2)

/- ------------------------------------------------------
   Interleaved generator calls (for the determinism property)
------------------------------------------------------ -/

/-- The results of an arbitrary interleaved sequence of calls to
`shouldSpawnCache` and `pickCacheValue`: both functions read no mutable
state, so each call's result is a function of its own arguments. -/
def genCalls (cs : List (Int × Int)) : List (Bool × Nat) :=
  cs.map (fun c => (shouldSpawnCache c.1 c.2, pickCacheValue c.1 c.2))

/- ------------------------------------------------------
   Lemmas: the JS Map model
------------------------------------------------------ -/

theorem mapGet_mapSet_self {α : Type} (m : List (String × α)) (k : String)
    (v : α) : mapGet (mapSet m k v) k = some v := by
  induction m with
  | nil => simp [mapSet, mapGet]
  | cons p rest ih =>
      by_cases h : p.1 = k
      · simp [mapSet, mapGet, h]
      · simp [mapSet, mapGet, h, ih]

theorem mapGet_mapSet_ne {α : Type} (m : List (String × α)) (k k' : String)
    (v : α) (h : k' ≠ k) : mapGet (mapSet m k v) k' = mapGet m k' := by
  induction m with
  | nil => simp [mapSet, mapGet, Ne.symm h]
  | cons p rest ih =>
      rw [mapSet]
      by_cases hp : p.1 = k
      · rw [if_pos hp, mapGet, if_neg (Ne.symm h), mapGet,
          if_neg (by rw [hp]; exact Ne.symm h)]
      · rw [if_neg hp, mapGet, mapGet]
        by_cases hp' : p.1 = k'
        · rw [if_pos hp', if_pos hp']
        · rw [if_neg hp', if_neg hp', ih]

theorem mem_mapSet {α : Type} {m : List (String × α)} {k : String} {v : α}
    {p : String × α} (h : p ∈ mapSet m k v) : p = (k, v) ∨ p ∈ m := by
  induction m with
  | nil => simpa [mapSet] using h
  | cons q rest ih =>
      by_cases hq : q.1 = k
      · rw [mapSet] at h
        simp only [hq, if_pos rfl] at h
        rcases List.mem_cons.mp h with h | h
        · exact Or.inl h
        · exact Or.inr (List.mem_cons_of_mem _ h)
      · rw [mapSet] at h
        simp only [hq, if_neg hq] at h
        rcases List.mem_cons.mp h with h | h
        · exact Or.inr (h ▸ List.mem_cons_self _ _)
        · rcases ih h with h | h
          · exact Or.inl h
          · exact Or.inr (List.mem_cons_of_mem _ h)

theorem keys_mapSet {α : Type} (m : List (String × α)) (k : String) (v : α) :
    (mapSet m k v).map Prod.fst = m.map Prod.fst ∨
      (mapSet m k v).map Prod.fst = m.map Prod.fst ++ [k] := by
  induction m with
  | nil => simp [mapSet]
  | cons p rest ih =>
      by_cases hp : p.1 = k
      · left
        simp [mapSet, hp]
      · rcases ih with h | h
        · left
          simp [mapSet, hp, h]
        · right
          simp [mapSet, hp, h]

theorem nodup_keys_mapSet {α : Type} {m : List (String × α)} (k : String)
    (v : α) (h : (m.map Prod.fst).Nodup) :
    ((mapSet m k v).map Prod.fst).Nodup := by
  induction m with
  | nil => simp [mapSet]
  | cons p rest ih =>
      simp only [List.map_cons, List.nodup_cons] at h
      rw [mapSet]
      by_cases hp : p.1 = k
      · rw [if_pos hp]
        simp only [List.map_cons, List.nodup_cons]
        exact ⟨hp ▸ h.1, h.2⟩
      · rw [if_neg hp]
        simp only [List.map_cons, List.nodup_cons]
        refine ⟨?_, ih h.2⟩
        intro hmem
        rcases keys_mapSet rest k v with hk | hk
        · rw [hk] at hmem
          exact h.1 hmem
        · rw [hk] at hmem
          rcases List.mem_append.mp hmem with hmem | hmem
          · exact h.1 hmem
          · simp at hmem
            exact hp hmem

theorem mapGet_none_of_not_mem_keys {α : Type} {m : List (String × α)}
    {k : String} (h : k ∉ m.map Prod.fst) : mapGet m k = none := by
  induction m with
  | nil => rfl
  | cons p rest ih =>
      simp only [List.map_cons, List.mem_cons] at h
      push_neg at h
      rw [mapGet, if_neg (fun hh => h.1 hh.symm)]
      exact ih h.2

/- ------------------------------------------------------
   Lemmas: the deterministic value generator
------------------------------------------------------ -/

theorem luckString_eq (i j : Int) :
    luckString i j = keyOf i j ++ ",initialValue" := by
  rw [luckString, keyOf, String.append_assoc]
  congr 1

theorem pickCacheValue_eq_key (i j : Int) :
    pickCacheValue i j = pickValueOfKey (keyOf i j) := by
  simp only [pickCacheValue, pickValueOfKey, luckString_eq]

theorem pickValueOfKey_le (k : String) : pickValueOfKey k ≤ 128 := by
  rw [pickValueOfKey]
  set n :=
    (Int.floor (luck (k ++ ",initialValue") * 1000000)).toNat %
      COIN_VALUES.length with hn
  have h8 : n < 8 := by
    rw [hn]
    exact Nat.mod_lt _ (by norm_num [COIN_VALUES])
  interval_cases n <;> decide

theorem pickCacheValue_le (i j : Int) : pickCacheValue i j ≤ 128 := by
  rw [pickCacheValue_eq_key]
  exact pickValueOfKey_le _

theorem mapGet_mem {α : Type} {m : List (String × α)} {k : String} {v : α}
    (h : mapGet m k = some v) : (k, v) ∈ m := by
  induction m with
  | nil => simp [mapGet] at h
  | cons p rest ih =>
      rw [mapGet] at h
      by_cases hp : p.1 = k
      · rw [if_pos hp] at h
        obtain ⟨p1, p2⟩ := p
        simp only at hp
        injection h with h2
        subst hp h2
        exact List.mem_cons_self _ _
      · rw [if_neg hp] at h
        exact List.mem_cons_of_mem _ (ih h)

/- ------------------------------------------------------
   Lemmas: getCellValue and the tooltip value
------------------------------------------------------ -/

/-- Every entry of `cellValues` holds the deterministic value of its key
(the memo cache never stores anything but a re-derivable default). -/
def cellValuesOK (s : GameState) : Prop :=
  ∀ p ∈ s.cellValues, p.2 = pickValueOfKey p.1

theorem getCellValue_overlay (s : GameState) (i j : Int) :
    (getCellValue s i j).2.modifiedCacheState = s.modifiedCacheState := by
  simp only [getCellValue]
  split <;> rfl

theorem getCellValue_held (s : GameState) (i j : Int) :
    (getCellValue s i j).2.playerHeldCoin = s.playerHeldCoin := by
  simp only [getCellValue]
  split <;> rfl

theorem getCellValue_playerI (s : GameState) (i j : Int) :
    (getCellValue s i j).2.playerI = s.playerI := by
  simp only [getCellValue]
  split <;> rfl

theorem getCellValue_playerJ (s : GameState) (i j : Int) :
    (getCellValue s i j).2.playerJ = s.playerJ := by
  simp only [getCellValue]
  split <;> rfl

theorem getCellValue_fst_of_ok {s : GameState} (h : cellValuesOK s)
    (i j : Int) : (getCellValue s i j).1 = pickCacheValue i j := by
  cases hv : mapGet s.cellValues (keyOf i j) with
  | none => simp [getCellValue, hv, mapGet_mapSet_self]
  | some v =>
      have hmem := h _ (mapGet_mem hv)
      simp only at hmem
      simp [getCellValue, hv, hmem, pickCacheValue_eq_key]

theorem cellValuesOK_getCellValue {s : GameState} (h : cellValuesOK s)
    (i j : Int) : cellValuesOK (getCellValue s i j).2 := by
  cases hv : mapGet s.cellValues (keyOf i j) with
  | some v => simpa [getCellValue, hv, cellValuesOK] using h
  | none =>
      simp only [getCellValue, hv, Option.isSome_none, Bool.false_eq_true,
        if_false, cellValuesOK]
      intro p hp
      rcases mem_mapSet hp with rfl | hp
      · exact pickCacheValue_eq_key i j
      · exact h p hp

theorem updateCircleTooltip_overlay (s : GameState) (i j : Int) :
    (updateCircleTooltip s i j).2.modifiedCacheState =
      s.modifiedCacheState := by
  simp only [updateCircleTooltip]
  split
  · rfl
  · exact getCellValue_overlay s i j

theorem updateCircleTooltip_held (s : GameState) (i j : Int) :
    (updateCircleTooltip s i j).2.playerHeldCoin = s.playerHeldCoin := by
  simp only [updateCircleTooltip]
  split
  · rfl
  · exact getCellValue_held s i j

theorem cellValuesOK_updateCircleTooltip {s : GameState}
    (h : cellValuesOK s) (i j : Int) :
    cellValuesOK (updateCircleTooltip s i j).2 := by
  simp only [updateCircleTooltip]
  split
  · exact h
  · exact cellValuesOK_getCellValue h i j

theorem updateCircleTooltip_fst_le {s : GameState} (h : cellValuesOK s)
    (i j : Int) : (updateCircleTooltip s i j).1 ≤ 128 := by
  simp only [updateCircleTooltip]
  split
  · exact Nat.zero_le _
  · rw [getCellValue_fst_of_ok h]
    exact pickCacheValue_le i j

/-- For a picked-up cell the tooltip query returns `0` without touching any
state. -/
theorem updateCircleTooltip_picked {s : GameState} {i j : Int}
    (h : mapGet s.modifiedCacheState (keyOf i j) = some ⟨true⟩) :
    updateCircleTooltip s i j = (0, s) := by
  simp [updateCircleTooltip, h]

/-- `handleCachePickup` phrased through the tooltip query: the current value
it branches on is exactly the value a tooltip query would display, because
lines 399-400 of the source duplicate the formula of lines 370-371. -/
theorem handleCachePickup_eq (s : GameState) (i j : Int) :
    handleCachePickup s i j =
      match (updateCircleTooltip s i j).2.playerHeldCoin with
      | none =>
          (Outcome.PickedUp (updateCircleTooltip s i j).1, false,
            { (updateCircleTooltip s i j).2 with
              playerHeldCoin := some ((updateCircleTooltip s i j).1 : Int),
              modifiedCacheState :=
                mapSet (updateCircleTooltip s i j).2.modifiedCacheState
                  (keyOf i j) ⟨true⟩ })
      | some held =>
          if held = ((updateCircleTooltip s i j).1 : Int) then
            (Outcome.Merged (held * 2), held * 2 = 256,
              { (updateCircleTooltip s i j).2 with
                playerHeldCoin := some (held * 2),
                modifiedCacheState :=
                  mapSet (updateCircleTooltip s i j).2.modifiedCacheState
                    (keyOf i j) ⟨true⟩ })
          else
            (Outcome.Rejected, false, (updateCircleTooltip s i j).2) := by
  rfl

/- ------------------------------------------------------
   The reachable-state invariant
------------------------------------------------------ -/

/-- Invariant of every reachable state: every overlay entry is
`{pickedUp: true}`, every overlay key is the textual composite `keyOf i j`,
overlay keys are unique, and the memo cache only holds re-derivable
defaults. -/
def stateInv (s : GameState) : Prop :=
  (∀ p ∈ s.modifiedCacheState, p.2.pickedUp = true) ∧
  (∀ p ∈ s.modifiedCacheState, ∃ a b : Int, p.1 = keyOf a b) ∧
  (s.modifiedCacheState.map Prod.fst).Nodup ∧
  cellValuesOK s

theorem stateInv_initial : stateInv initialState := by
  refine ⟨?_, ?_, ?_, ?_⟩
  · intro p hp
    simp [initialState] at hp
  · intro p hp
    simp [initialState] at hp
  · simp [initialState]
  · intro p hp
    simp [initialState] at hp

theorem stateInv_pickup {s : GameState} (h : stateInv s) (i j : Int) :
    stateInv (handleCachePickup s i j).2.2 := by
  obtain ⟨h1, h2, h3, h4⟩ := h
  rw [handleCachePickup_eq]
  have ho := updateCircleTooltip_overlay s i j
  have hok := cellValuesOK_updateCircleTooltip h4 i j
  have hset : ∀ hc : Option Int,
      stateInv
        { (updateCircleTooltip s i j).2 with
          playerHeldCoin := hc,
          modifiedCacheState :=
            mapSet (updateCircleTooltip s i j).2.modifiedCacheState
              (keyOf i j) ⟨true⟩ } := by
    intro hc
    refine ⟨?_, ?_, ?_, ?_⟩
    · intro p hp
      rcases mem_mapSet hp with rfl | hp
      · rfl
      · rw [ho] at hp
        exact h1 p hp
    · intro p hp
      rcases mem_mapSet hp with rfl | hp
      · exact ⟨i, j, rfl⟩
      · rw [ho] at hp
        exact h2 p hp
    · rw [ho]
      exact nodup_keys_mapSet _ _ h3
    · exact hok
  split
  · exact hset _
  · split
    · exact hset _
    · refine ⟨?_, ?_, ?_, hok⟩
      · rw [ho]
        exact h1
      · rw [ho]
        exact h2
      · rw [ho]
        exact h3

theorem stateInv_moveBy {s : GameState} (h : stateInv s) (di dj : Int) :
    stateInv (moveBy s di dj) :=
  h

theorem stateInv_moveTo {s : GameState} (h : stateInv s) (lat lng : ℚ) :
    stateInv (moveToLatLng s lat lng) :=
  h

theorem stateInv_touchCell {s : GameState} (h : stateInv s)
    (c : Int × Int) : stateInv (touchCell s c) := by
  obtain ⟨h1, h2, h3, h4⟩ := h
  refine ⟨?_, ?_, ?_, cellValuesOK_getCellValue h4 _ _⟩ <;>
    rw [touchCell, getCellValue_overlay] <;> assumption

theorem stateInv_touchCells {s : GameState} (h : stateInv s)
    (cs : List (Int × Int)) : stateInv (touchCells s cs) := by
  induction cs generalizing s with
  | nil => exact h
  | cons c rest ih => exact ih (stateInv_touchCell h c)

theorem stateInv_reset {s : GameState} (h : stateInv s) :
    stateInv (startNewGame s) := by
  obtain ⟨-, -, -, h4⟩ := h
  refine ⟨?_, ?_, ?_, h4⟩
  · intro p hp
    simp [startNewGame] at hp
  · intro p hp
    simp [startNewGame] at hp
  · simp [startNewGame]

theorem stateInv_step {s s' : GameState} (hs : Step s s')
    (h : stateInv s) : stateInv s' := by
  cases hs with
  | pickup i j => exact stateInv_pickup h i j
  | move di dj => exact stateInv_moveBy h di dj
  | moveTo lat lng => exact stateInv_moveTo h lat lng
  | touch cs => exact stateInv_touchCells h cs
  | reset => exact stateInv_reset h

theorem reachable_stateInv {s : GameState} (h : Reachable s) :
    stateInv s := by
  induction h with
  | refl => exact stateInv_initial
  | tail _ hstep ih => exact stateInv_step hstep ih

/- ------------------------------------------------------
   Session steps never remove a pickedUp overlay entry
------------------------------------------------------ -/

theorem touchCells_overlay (s : GameState) (cs : List (Int × Int)) :
    (touchCells s cs).modifiedCacheState = s.modifiedCacheState := by
  induction cs generalizing s with
  | nil => rfl
  | cons c rest ih =>
      show (touchCells (touchCell s c) rest).modifiedCacheState = _
      rw [ih, touchCell, getCellValue_overlay]

theorem sessionStep_keeps_picked {s s' : GameState} {k : String}
    (hs : SessionStep s s')
    (h : mapGet s.modifiedCacheState k = some ⟨true⟩) :
    mapGet s'.modifiedCacheState k = some ⟨true⟩ := by
  cases hs with
  | pickup i j =>
      rw [handleCachePickup_eq]
      have ho := updateCircleTooltip_overlay s i j
      have hset :
          mapGet
            (mapSet (updateCircleTooltip s i j).2.modifiedCacheState
              (keyOf i j) ⟨true⟩) k = some ⟨true⟩ := by
        by_cases hk : k = keyOf i j
        · rw [hk, mapGet_mapSet_self]
        · rw [mapGet_mapSet_ne _ _ _ _ hk, ho]
          exact h
      split
      · exact hset
      · split
        · exact hset
        · rw [ho]
          exact h
  | move di dj => exact h
  | moveTo lat lng => exact h
  | touch cs =>
      rw [touchCells_overlay]
      exact h

/- ------------------------------------------------------
   Case analysis of handleCachePickup
------------------------------------------------------ -/

theorem handleCachePickup_cases (s : GameState) (i j : Int) :
    (s.playerHeldCoin = none ∧
      handleCachePickup s i j =
        (Outcome.PickedUp (updateCircleTooltip s i j).1, false,
          { (updateCircleTooltip s i j).2 with
            playerHeldCoin := some ((updateCircleTooltip s i j).1 : Int),
            modifiedCacheState :=
              mapSet (updateCircleTooltip s i j).2.modifiedCacheState
                (keyOf i j) ⟨true⟩ })) ∨
    (∃ held, s.playerHeldCoin = some held ∧
      held = ((updateCircleTooltip s i j).1 : Int) ∧
      handleCachePickup s i j =
        (Outcome.Merged (held * 2), decide (held * 2 = 256),
          { (updateCircleTooltip s i j).2 with
            playerHeldCoin := some (held * 2),
            modifiedCacheState :=
              mapSet (updateCircleTooltip s i j).2.modifiedCacheState
                (keyOf i j) ⟨true⟩ })) ∨
    (∃ held, s.playerHeldCoin = some held ∧
      held ≠ ((updateCircleTooltip s i j).1 : Int) ∧
      handleCachePickup s i j =
        (Outcome.Rejected, false, (updateCircleTooltip s i j).2)) := by
  have hs' := updateCircleTooltip_held s i j
  cases hh : s.playerHeldCoin with
  | none =>
      left
      refine ⟨rfl, ?_⟩
      rw [handleCachePickup_eq, hs', hh]
  | some held =>
      by_cases hv : held = ((updateCircleTooltip s i j).1 : Int)
      · right
        left
        refine ⟨held, rfl, hv, ?_⟩
        rw [handleCachePickup_eq, hs', hh]
        dsimp only
        rw [if_pos hv]
      · right
        right
        refine ⟨held, rfl, hv, ?_⟩
        rw [handleCachePickup_eq, hs', hh]
        dsimp only
        rw [if_neg hv]

/-- The win alert fires exactly when the outcome is `Merged 256`. -/
theorem pickup_flag_iff (s : GameState) (i j : Int) :
    (handleCachePickup s i j).2.1 = true ↔
      (handleCachePickup s i j).1 = Outcome.Merged 256 := by
  rcases handleCachePickup_cases s i j with ⟨-, he⟩ | ⟨v, -, -, he⟩ |
    ⟨v, -, -, he⟩ <;> rw [he] <;> simp

/- ------------------------------------------------------
   Persistence lemmas
------------------------------------------------------ -/

theorem jsMapSet_append {m : List (JsVal × JsVal)} {k v : JsVal}
    (h : ∀ p ∈ m, jsKeyEq p.1 k = false) : jsMapSet m k v = m ++ [(k, v)] := by
  induction m with
  | nil => rfl
  | cons p rest ih =>
      have hp := h p (List.mem_cons_self _ _)
      rw [jsMapSet, if_neg (by rw [hp]; exact Bool.false_ne_true),
        ih (fun q hq => h q (List.mem_cons_of_mem _ hq))]
      rfl

theorem destructure2_entry (p : String × CacheRecord) :
    destructure2 (JsVal.ofJson (Json.arr
        [Json.str p.1, Json.obj [("pickedUp", Json.bool p.2.pickedUp)]])) =
      some (JsVal.ofJson (Json.str p.1),
        JsVal.ofJson (Json.obj [("pickedUp", Json.bool p.2.pickedUp)])) :=
  rfl

theorem restoreEntries_encoded :
    ∀ (l : List (String × CacheRecord)) (acc : List (JsVal × JsVal)),
    (∀ p ∈ acc, ∀ q ∈ l,
      jsKeyEq p.1 (JsVal.ofJson (Json.str q.1)) = false) →
    (l.map Prod.fst).Nodup →
    restoreEntries acc (l.map (fun p =>
        Json.arr [Json.str p.1,
          Json.obj [("pickedUp", Json.bool p.2.pickedUp)]])) =
      acc ++ l.map (fun p => (JsVal.ofJson (Json.str p.1),
        JsVal.ofJson (Json.obj [("pickedUp", Json.bool p.2.pickedUp)]))) := by
  intro l
  induction l with
  | nil =>
      intro acc _ _
      simp [restoreEntries]
  | cons q rest ih =>
      intro acc hacc hnd
      simp only [List.map_cons, restoreEntries, destructure2_entry]
      have hset := jsMapSet_append
        (m := acc) (k := JsVal.ofJson (Json.str q.1))
        (v := JsVal.ofJson (Json.obj [("pickedUp", Json.bool q.2.pickedUp)]))
        (fun p hp => hacc p hp q (List.mem_cons_self _ _))
      rw [hset]
      simp only [List.map_cons, List.nodup_cons] at hnd
      rw [ih _ ?_ hnd.2]
      · simp
      · intro p hp r hr
        rcases List.mem_append.mp hp with hp | hp
        · exact hacc p hp r (List.mem_cons_of_mem _ hr)
        · have hp' : p = (JsVal.ofJson (Json.str q.1),
              JsVal.ofJson (Json.obj [("pickedUp", Json.bool q.2.pickedUp)])) := by
            simpa using hp
          have hne : q.1 ≠ r.1 := by
            intro hqr
            exact hnd.1 (hqr ▸ List.mem_map_of_mem Prod.fst hr)
          rw [hp']
          simp [jsKeyEq, hne]

/-- `loadGameState` on the image of `saveGameState`, reduced down to the
entry-restoration loop: all property reads succeed on a well-formed
snapshot. -/
theorem loadFromJson_save (s : GameState) (t : JsState) :
    loadFromJson t (JsVal.ofJson (saveGameState s)) =
      { playerI := JsVal.ofJson (Json.num s.playerI)
        playerJ := JsVal.ofJson (Json.num s.playerJ)
        playerHeldCoin :=
          JsVal.ofJson
            (match s.playerHeldCoin with
             | none => Json.null
             | some n => Json.num n)
        modifiedCacheState :=
          restoreEntries [] (s.modifiedCacheState.map (fun p =>
            Json.arr [Json.str p.1,
              Json.obj [("pickedUp", Json.bool p.2.pickedUp)]])) } :=
  rfl

theorem loadGameState_save (s : GameState) (t : JsState)
    (hnd : (s.modifiedCacheState.map Prod.fst).Nodup) :
    loadGameState t (some (some (saveGameState s))) = toJsState s := by
  show loadFromJson t (JsVal.ofJson (saveGameState s)) = toJsState s
  rw [loadFromJson_save,
    restoreEntries_encoded _ _ (fun p hp => absurd hp (List.not_mem_nil p))
      hnd]
  rw [toJsState]
  cases s.playerHeldCoin <;> simp

/- ------------------------------------------------------
   Grid addressing lemmas
------------------------------------------------------ -/

theorem floor_center (n : Int) :
    ⌊((n : ℚ) * TILE_DEGREES + TILE_DEGREES / 2) / TILE_DEGREES⌋ = n := by
  have hT : TILE_DEGREES ≠ 0 := by norm_num [TILE_DEGREES]
  have h1 : ((n : ℚ) * TILE_DEGREES + TILE_DEGREES / 2) / TILE_DEGREES =
      (1 / 2 : ℚ) + (n : ℚ) := by
    field_simp
    ring
  rw [h1, Int.floor_add_int]
  norm_num

/- ------------------------------------------------------
   Win-report lemmas (event traces from a fresh state)
------------------------------------------------------ -/

/-- Trace invariant for the win property: the player always holds a coin
(`playerHeldCoin` is never `null` from a fresh state) and the memo cache
holds only re-derivable defaults. -/
def heldAndMemoOK (s : GameState) : Prop :=
  (∃ v, s.playerHeldCoin = some v) ∧ cellValuesOK s

theorem stepEv_ok {s : GameState} (h : heldAndMemoOK s) (e : Ev) :
    heldAndMemoOK (stepEv s e).2.2 := by
  obtain ⟨⟨v, hv⟩, hok⟩ := h
  cases e with
  | interact i j =>
      have hok' := cellValuesOK_updateCircleTooltip hok i j
      rcases handleCachePickup_cases s i j with ⟨hh, he⟩ | ⟨w, hh, -, he⟩ |
        ⟨w, hh, -, he⟩
      · rw [hh] at hv
        exact absurd hv (by simp)
      · refine ⟨⟨w * 2, ?_⟩, ?_⟩
        · show (handleCachePickup s i j).2.2.playerHeldCoin = _
          rw [he]
        · show cellValuesOK (handleCachePickup s i j).2.2
          rw [he]
          exact hok'
      · refine ⟨⟨w, ?_⟩, ?_⟩
        · show (handleCachePickup s i j).2.2.playerHeldCoin = _
          rw [he, updateCircleTooltip_held]
          exact hh
        · show cellValuesOK (handleCachePickup s i j).2.2
          rw [he]
          exact hok'
  | move di dj => exact ⟨⟨v, hv⟩, hok⟩

theorem stepEv_at256 {s : GameState} (h : heldAndMemoOK s)
    (h256 : s.playerHeldCoin = some 256) (e : Ev) :
    (stepEv s e).2.1 = false ∧
      (stepEv s e).2.2.playerHeldCoin = some 256 := by
  cases e with
  | interact i j =>
      have hle := updateCircleTooltip_fst_le h.2 i j
      rcases handleCachePickup_cases s i j with ⟨hh, he⟩ | ⟨w, hh, hv, he⟩ |
        ⟨w, hh, -, he⟩
      · rw [hh] at h256
        exact absurd h256 (by simp)
      · rw [hh] at h256
        have hw : w = 256 := by simpa using h256
        exfalso
        rw [hw] at hv
        omega
      · constructor
        · show (handleCachePickup s i j).2.1 = false
          rw [he]
        · show (handleCachePickup s i j).2.2.playerHeldCoin = _
          rw [he, updateCircleTooltip_held]
          exact h256
  | move di dj => exact ⟨rfl, h256⟩

theorem stepEv_flag_true {s : GameState} {e : Ev}
    (hf : (stepEv s e).2.1 = true) :
    (stepEv s e).2.2.playerHeldCoin = some 256 := by
  cases e with
  | interact i j =>
      simp only [stepEv] at hf ⊢
      rcases handleCachePickup_cases s i j with ⟨-, he⟩ | ⟨w, -, -, he⟩ |
        ⟨w, -, -, he⟩
      · rw [he] at hf
        simp at hf
      · rw [he] at hf ⊢
        simp at hf
        simp [hf]
      · rw [he] at hf
        simp at hf
  | move di dj => simp [stepEv] at hf

theorem stepEv_flag_false {s : GameState} {e : Ev} (h : heldAndMemoOK s)
    (hne : s.playerHeldCoin ≠ some 256)
    (hf : (stepEv s e).2.1 = false) :
    (stepEv s e).2.2.playerHeldCoin ≠ some 256 := by
  cases e with
  | interact i j =>
      have hle := updateCircleTooltip_fst_le h.2 i j
      rcases handleCachePickup_cases s i j with ⟨hh, he⟩ | ⟨w, hh, hv, he⟩ |
        ⟨w, hh, -, he⟩
      · show (handleCachePickup s i j).2.2.playerHeldCoin ≠ _
        rw [he]
        intro hc
        simp only [Option.some.injEq] at hc
        omega
      · have hw : ¬ w * 2 = 256 := by
          have := hf
          simp only [stepEv, he] at this
          simpa using this
        show (handleCachePickup s i j).2.2.playerHeldCoin ≠ _
        rw [he]
        simpa using hw
      · show (handleCachePickup s i j).2.2.playerHeldCoin ≠ _
        rw [he, updateCircleTooltip_held]
        exact hne
  | move di dj => exact hne

/-- Number of win reports in a trace record. -/
def countWins (l : List (Option Outcome × Bool)) : Nat :=
  (l.map (fun r => r.2)).count true

theorem runEv_countWins : ∀ (es : List Ev) (s : GameState),
    heldAndMemoOK s →
    (s.playerHeldCoin = some 256 → countWins (runEv s es).1 = 0) ∧
    (s.playerHeldCoin ≠ some 256 → countWins (runEv s es).1 ≤ 1) := by
  intro es
  induction es with
  | nil => exact fun s _ => ⟨fun _ => rfl, fun _ => Nat.zero_le _⟩
  | cons e rest ih =>
      intro s hOK
      have hOK' := stepEv_ok hOK e
      have hcount : countWins (runEv s (e :: rest)).1 =
          countWins (runEv (stepEv s e).2.2 rest).1 +
            (if (stepEv s e).2.1 = true then 1 else 0) := by
        simp [runEv, countWins, List.count_cons]
      constructor
      · intro h256
        obtain ⟨hf, hh'⟩ := stepEv_at256 hOK h256 e
        rw [hcount, hf, (ih _ hOK').1 hh']
        simp
      · intro hne
        cases hf : (stepEv s e).2.1 with
        | true =>
            have hh' := stepEv_flag_true hf
            rw [hcount, hf, (ih _ hOK').1 hh']
            simp
        | false =>
            have hh' := stepEv_flag_false hOK hne hf
            rw [hcount, hf]
            have := (ih _ hOK').2 hh'
            simpa using this

theorem sessionReach_keeps_picked {s s' : GameState} {k : String}
    (hr : Relation.ReflTransGen SessionStep s s')
    (h : mapGet s.modifiedCacheState k = some ⟨true⟩) :
    mapGet s'.modifiedCacheState k = some ⟨true⟩ := by
  induction hr with
  | refl => exact h
  | tail _ hstep ih => exact sessionStep_keeps_picked hstep ih

/- ------------------------------------------------------
   CLAIMS
------------------------------------------------------ -/

theorem genCalls_length (cs : List (Int × Int)) :
    (genCalls cs).length = cs.length := by
  simp [genCalls]

/-- State with the held coin absent and cell (0,0) already picked up. -/
def c1NoneState : GameState := ⟨0, 0, none, [], [("0,0", ⟨true⟩)]⟩

/-- State holding a coin of value 0 with cell (0,0) already picked up (its
current value is 0). -/
def c1ZeroState : GameState := ⟨0, 0, some 0, [], [("0,0", ⟨true⟩)]⟩

/-- State holding a coin of value 5 with cell (0,0) already picked up. -/
def c1RejState : GameState := ⟨0, 0, some 5, [], [("0,0", ⟨true⟩)]⟩

/-- C1 (amended): `handleCachePickup` follows the transition rule with no
zero-value guard: if the held coin is absent it succeeds as PickedUp with
the cell's current value and marks the overlay entry pickedUp=true; if the
held coin equals the cell's current value — even when that value is 0 — it
succeeds as Merged giving the player twice the held value and marks
pickedUp=true; otherwise it is Rejected and changes neither the held coin
nor the overlay. -/
theorem c1_transition_rule (s : GameState) (i j : Int) :
    (s.playerHeldCoin = none →
      (handleCachePickup s i j).1 =
          Outcome.PickedUp (updateCircleTooltip s i j).1 ∧
        (handleCachePickup s i j).2.2.playerHeldCoin =
          some ((updateCircleTooltip s i j).1 : Int) ∧
        mapGet (handleCachePickup s i j).2.2.modifiedCacheState (keyOf i j) =
          some ⟨true⟩) ∧
    (∀ held, s.playerHeldCoin = some held →
      held = ((updateCircleTooltip s i j).1 : Int) →
      (handleCachePickup s i j).1 = Outcome.Merged (held * 2) ∧
        (handleCachePickup s i j).2.2.playerHeldCoin = some (held * 2) ∧
        mapGet (handleCachePickup s i j).2.2.modifiedCacheState (keyOf i j) =
          some ⟨true⟩) ∧
    (∀ held, s.playerHeldCoin = some held →
      held ≠ ((updateCircleTooltip s i j).1 : Int) →
      (handleCachePickup s i j).1 = Outcome.Rejected ∧
        (handleCachePickup s i j).2.2.playerHeldCoin = s.playerHeldCoin ∧
        (handleCachePickup s i j).2.2.modifiedCacheState =
          s.modifiedCacheState) := by
  rcases handleCachePickup_cases s i j with ⟨hh, he⟩ | ⟨w, hh, hv, he⟩ |
    ⟨w, hh, hv, he⟩
  · refine ⟨fun _ => ?_, ?_, ?_⟩
    · rw [he]
      exact ⟨rfl, rfl, mapGet_mapSet_self _ _ _⟩
    · intro held hsome _
      rw [hh] at hsome
      exact absurd hsome (by simp)
    · intro held hsome _
      rw [hh] at hsome
      exact absurd hsome (by simp)
  · refine ⟨?_, ?_, ?_⟩
    · intro hnone
      rw [hh] at hnone
      exact absurd hnone (by simp)
    · intro held hsome _
      rw [hh] at hsome
      injection hsome with hw
      subst hw
      rw [he]
      exact ⟨rfl, rfl, mapGet_mapSet_self _ _ _⟩
    · intro held hsome hne
      rw [hh] at hsome
      injection hsome with hw
      subst hw
      exact absurd hv hne
  · refine ⟨?_, ?_, ?_⟩
    · intro hnone
      rw [hh] at hnone
      exact absurd hnone (by simp)
    · intro held hsome hveq
      rw [hh] at hsome
      injection hsome with hw
      subst hw
      exact absurd hveq hv
    · intro held hsome _
      rw [he]
      exact ⟨rfl, updateCircleTooltip_held s i j,
        updateCircleTooltip_overlay s i j⟩

/-- C1 counterexample: with a held coin of value 0 and an already-picked
cell whose current value is 0 (a zero value), the code merges — outcome
`Merged 0` — where the claim's transition rule requires `Rejected` because
the matching value is not nonzero. -/
theorem c1_counterexample :
    c1ZeroState.playerHeldCoin = some 0 ∧
    (updateCircleTooltip c1ZeroState 0 0).1 = 0 ∧
    (handleCachePickup c1ZeroState 0 0).1 = Outcome.Merged 0 ∧
    ¬ (handleCachePickup c1ZeroState 0 0).1 = Outcome.Rejected := by
  decide

/-- C1 witness: the three branches of the amended transition rule at
concrete states. -/
theorem c1_witness :
    ((handleCachePickup c1NoneState 0 0).1 =
        Outcome.PickedUp (updateCircleTooltip c1NoneState 0 0).1 ∧
      (handleCachePickup c1NoneState 0 0).2.2.playerHeldCoin =
        some ((updateCircleTooltip c1NoneState 0 0).1 : Int) ∧
      mapGet (handleCachePickup c1NoneState 0 0).2.2.modifiedCacheState
        (keyOf 0 0) = some ⟨true⟩) ∧
    ((handleCachePickup c1ZeroState 0 0).1 = Outcome.Merged (0 * 2) ∧
      (handleCachePickup c1ZeroState 0 0).2.2.playerHeldCoin =
        some (0 * 2) ∧
      mapGet (handleCachePickup c1ZeroState 0 0).2.2.modifiedCacheState
        (keyOf 0 0) = some ⟨true⟩) ∧
    ((handleCachePickup c1RejState 0 0).1 = Outcome.Rejected ∧
      (handleCachePickup c1RejState 0 0).2.2.playerHeldCoin =
        c1RejState.playerHeldCoin ∧
      (handleCachePickup c1RejState 0 0).2.2.modifiedCacheState =
        c1RejState.modifiedCacheState) :=
  ⟨(c1_transition_rule c1NoneState 0 0).1 rfl,
   (c1_transition_rule c1ZeroState 0 0).2.1 0 rfl (by decide),
   (c1_transition_rule c1RejState 0 0).2.2 5 rfl (by decide)⟩

/-- C2: once the overlay records pickedUp=true for a cell, any sequence of
session steps (pickups, moves, pans, visible-cache recomputations) keeps
the overlay entry `{pickedUp: true}` and the value query for that cell
returns 0. -/
theorem c2_picked_cell_reads_zero {s s' : GameState} {i j : Int}
    (hpick : mapGet s.modifiedCacheState (keyOf i j) = some ⟨true⟩)
    (hreach : Relation.ReflTransGen SessionStep s s') :
    mapGet s'.modifiedCacheState (keyOf i j) = some ⟨true⟩ ∧
      (updateCircleTooltip s' i j).1 = 0 := by
  have hp := sessionReach_keeps_picked hreach hpick
  refine ⟨hp, ?_⟩
  rw [updateCircleTooltip_picked hp]

/-- Concrete state with cell (0,4) recorded as picked up. -/
def c2Start : GameState := ⟨0, 0, some 1, [], [("0,4", ⟨true⟩)]⟩

/-- C2 witness: after a move step away from a state where cell (0,4) is
picked up, its query value is still 0 and the entry is intact. -/
theorem c2_witness :
    mapGet c2Start.modifiedCacheState (keyOf 0 4) = some ⟨true⟩ ∧
    (mapGet (moveBy c2Start 1 0).modifiedCacheState (keyOf 0 4) =
        some ⟨true⟩ ∧
      (updateCircleTooltip (moveBy c2Start 1 0) 0 4).1 = 0) :=
  ⟨by decide,
   c2_picked_cell_reads_zero (by decide)
     (Relation.ReflTransGen.single (SessionStep.move c2Start 1 0))⟩

/-- C3: `shouldSpawnCache` and `pickCacheValue` are pure functions of the
cell identifier: in any interleaved sequence of calls, two calls with the
same `(i, j)` argument — at any two positions — return identical results. -/
theorem c3_generator_deterministic (cs : List (Int × Int))
    (k1 k2 : Fin cs.length) (h : cs.get k1 = cs.get k2) :
    (genCalls cs).get (Fin.cast (genCalls_length cs).symm k1) =
      (genCalls cs).get (Fin.cast (genCalls_length cs).symm k2) := by
  have h1 : ∀ (k : Fin cs.length),
      (genCalls cs).get (Fin.cast (genCalls_length cs).symm k) =
        (shouldSpawnCache (cs.get k).1 (cs.get k).2,
          pickCacheValue (cs.get k).1 (cs.get k).2) := by
    intro k
    simp [genCalls, List.get_eq_getElem, List.getElem_map]
  rw [h1, h1, h]

/-- C3 witness: in a concrete interleaved call list, positions 0 and 2 have
the same argument and identical results. -/
theorem c3_witness :
    (genCalls [((0 : Int), (0 : Int)), (1, 1), (0, 0)]).get
        (Fin.cast (genCalls_length _).symm ⟨0, by decide⟩) =
      (genCalls [((0 : Int), (0 : Int)), (1, 1), (0, 0)]).get
        (Fin.cast (genCalls_length _).symm ⟨2, by decide⟩) :=
  c3_generator_deterministic _ _ _ (by decide)

/-- C4: grid addressing round-trips: converting a cell to its center
coordinate and back yields the same cell (flooring toward negative
infinity, negative cells included), and hence
`toCell (toCenter (toCell p)) = toCell p` for all coordinates. -/
theorem c4_roundtrip_addressing :
    (∀ i j : Int,
      latLngToCell (cellToLatLng i j).1 (cellToLatLng i j).2 = (i, j)) ∧
    (∀ lat lng : ℚ,
      latLngToCell
          (cellToLatLng (latLngToCell lat lng).1 (latLngToCell lat lng).2).1
          (cellToLatLng (latLngToCell lat lng).1 (latLngToCell lat lng).2).2 =
        latLngToCell lat lng) := by
  have key : ∀ i j : Int,
      latLngToCell (cellToLatLng i j).1 (cellToLatLng i j).2 = (i, j) := by
    intro i j
    simp [latLngToCell, cellToLatLng, floor_center, Prod.ext_iff]
  exact ⟨key, fun lat lng => (key _ _).trans rfl⟩

/-- C5: loading the snapshot written by save restores exactly the persisted
player and overlay state, for every reachable state (whose overlay keys are
unique) and whatever state the loader starts from. -/
theorem c5_persistence_roundtrip {s : GameState} (h : Reachable s)
    (t : JsState) :
    loadGameState t (some (some (saveGameState s))) = toJsState s :=
  loadGameState_save s t (reachable_stateInv h).2.2.1

/-- C5 witness: round-trip at the initial state. -/
theorem c5_witness :
    loadGameState (toJsState initialState)
        (some (some (saveGameState initialState))) = toJsState initialState :=
  c5_persistence_roundtrip Relation.ReflTransGen.refl _

/-- A syntactically valid JSON payload that does not match the snapshot
schema: `{"playerCell": {"i": 5, "j": 6}, "playerHeldCoin": 7}` with no
`modifiedCacheState` member. -/
def c6BadPayload : Json :=
  Json.obj [("playerCell", Json.obj [("i", Json.num 5), ("j", Json.num 6)]),
            ("playerHeldCoin", Json.num 7)]

/-- In-memory state before the malformed load: player at (0,0) holding a
coin of value 1, one picked-up overlay entry. -/
def c6Target : JsState :=
  { playerI := JsVal.ofJson (Json.num 0)
    playerJ := JsVal.ofJson (Json.num 0)
    playerHeldCoin := JsVal.ofJson (Json.num 1)
    modifiedCacheState :=
      [(JsVal.ofJson (Json.str "0,4"),
        JsVal.ofJson (Json.obj [("pickedUp", Json.bool true)]))] }

/-- C6 counterexample: a stored string that parses but does not match the
snapshot schema leaves the in-memory state partially overwritten: the
player position and held coin are replaced and the overlay is cleared
before the failure (`state.modifiedCacheState.forEach` throwing) is caught,
contradicting the claim that a malformed payload makes no change. -/
theorem c6_counterexample :
    loadGameState c6Target (some (some c6BadPayload)) ≠ c6Target ∧
    (loadGameState c6Target (some (some c6BadPayload))).playerI =
      JsVal.ofJson (Json.num 5) ∧
    (loadGameState c6Target (some (some c6BadPayload))).playerHeldCoin =
      JsVal.ofJson (Json.num 7) ∧
    (loadGameState c6Target (some (some c6BadPayload))).modifiedCacheState =
      [] := by
  refine ⟨?_, rfl, rfl, rfl⟩
  intro hcontra
  have hcoin := congrArg JsState.playerHeldCoin hcontra
  rw [show (loadGameState c6Target (some (some c6BadPayload))).playerHeldCoin =
      JsVal.ofJson (Json.num 7) from rfl] at hcoin
  simp [c6Target] at hcoin

/-- C6 (amended): when no value is stored, or the stored string fails
`JSON.parse`, `loadGameState` makes no change to the in-memory state (and
never crashes: it is a total function); a payload that parses but does not
match the snapshot schema is also caught without crashing, but may leave
the state partially overwritten. -/
theorem c6_parse_failure_no_change (t : JsState) :
    loadGameState t none = t ∧ loadGameState t (some none) = t :=
  ⟨rfl, rfl⟩

/-- The snapshot shape asserted by the claim:
`{ player: { position: {i,j}, heldCoin }, overlay: [...] }`. -/
def claimSnapshotShape (j : Json) : Prop :=
  ∃ pi pj hc entries,
    j = Json.obj
      [("player", Json.obj
          [("position", Json.obj [("i", Json.num pi), ("j", Json.num pj)]),
           ("heldCoin", hc)]),
       ("overlay", Json.arr entries)]

/-- The snapshot shape the code actually writes:
`{ playerCell: {i,j}, playerHeldCoin: number|null,
   modifiedCacheState: [[ "i,j", {pickedUp: boolean} ], ...] }`. -/
def snapshotShapeOK (j : Json) : Prop :=
  ∃ pi pj hc entries,
    j = Json.obj
        [("playerCell", Json.obj [("i", Json.num pi), ("j", Json.num pj)]),
         ("playerHeldCoin", hc),
         ("modifiedCacheState", Json.arr entries)] ∧
      (hc = Json.null ∨ ∃ n, hc = Json.num n) ∧
      ∀ e ∈ entries, ∃ a b r,
        e = Json.arr [Json.str (keyOf a b),
          Json.obj [("pickedUp", Json.bool r)]]

/-- C7 counterexample: the written snapshot's top-level keys are
`playerCell`, `playerHeldCoin`, `modifiedCacheState` — not the claimed
`player` / `overlay` shape — already at the initial state. -/
theorem c7_counterexample :
    ¬ claimSnapshotShape (saveGameState initialState) := by
  rintro ⟨pi, pj, hc, entries, he⟩
  have hk := congrArg (fun x =>
    match x with
    | Json.obj fields => fields.map Prod.fst
    | _ => ([] : List String)) he
  simp only [saveGameState, List.map_cons, List.map_nil] at hk
  exact absurd hk (by decide)

/-- C7 (amended): for every reachable state, the snapshot written under the
fixed key is the JSON object
`{ playerCell: {i,j}, playerHeldCoin: number|null,
   modifiedCacheState: [[ "i,j", {pickedUp: boolean} ], ...] }`, where each
overlay key is the textual composite of a cell's (i, j). -/
theorem c7_snapshot_shape {s : GameState} (h : Reachable s) :
    snapshotShapeOK (saveGameState s) := by
  obtain ⟨-, h2, -, -⟩ := reachable_stateInv h
  refine ⟨s.playerI, s.playerJ, _, _, rfl, ?_, ?_⟩
  · cases s.playerHeldCoin with
    | none => exact Or.inl rfl
    | some n => exact Or.inr ⟨n, rfl⟩
  · intro e he'
    simp only [List.mem_map] at he'
    obtain ⟨p, hp, rfl⟩ := he'
    obtain ⟨a, b, hk⟩ := h2 p hp
    exact ⟨a, b, p.2.pickedUp, by rw [hk]⟩

/-- C7 witness: shape of the snapshot at the initial state. -/
theorem c7_witness : snapshotShapeOK (saveGameState initialState) :=
  c7_snapshot_shape Relation.ReflTransGen.refl

theorem runEv_flags_iff : ∀ (es : List Ev) (s : GameState),
    ∀ r ∈ (runEv s es).1, r.2 = true ↔ r.1 = some (Outcome.Merged 256) := by
  intro es
  induction es with
  | nil =>
      intro s r hr
      simp [runEv] at hr
  | cons e rest ih =>
      intro s r hr
      simp only [runEv] at hr
      rcases List.mem_cons.mp hr with rfl | hr
      · cases e with
        | interact i j => simp [stepEv, pickup_flag_iff]
        | move di dj => simp [stepEv]
      · exact ih _ r hr

theorem runEv_length : ∀ (es : List Ev) (s : GameState),
    (runEv s es).1.length = es.length := by
  intro es
  induction es with
  | nil => intro s; rfl
  | cons e rest ih =>
      intro s
      simp [runEv, ih]

/-- C8: in every event trace from the fresh initial state, the win alert
fires at a step exactly when that step's pickup outcome is `Merged 256`
(so never before the merge that produces 256), it fires at most once over
the whole trace, and every event of the trace is still processed (no event
is blocked after the win). -/
theorem c8_win_reported_once (es : List Ev) :
    countWins (runEv initialState es).1 ≤ 1 ∧
    (∀ r ∈ (runEv initialState es).1,
      r.2 = true ↔ r.1 = some (Outcome.Merged 256)) ∧
    (runEv initialState es).1.length = es.length := by
  refine ⟨?_, runEv_flags_iff es initialState, runEv_length es initialState⟩
  have hOK : heldAndMemoOK initialState :=
    ⟨⟨1, rfl⟩, fun p hp => by simp [initialState] at hp⟩
  refine (runEv_countWins es initialState hOK).2 ?_
  simp [initialState]

/-- C9: for every reachable state, the memoized lookup agrees with the pure
generator: `getCellValue` returns exactly `pickCacheValue (i, j)`. -/
theorem c9_memo_refines_generator {s : GameState} (h : Reachable s)
    (i j : Int) : (getCellValue s i j).1 = pickCacheValue i j :=
  getCellValue_fst_of_ok (reachable_stateInv h).2.2.2 i j

/-- C9 witness: after a visible-cache recomputation memoized cell (0,0),
the lookup still returns the generated value. -/
theorem c9_witness :
    Reachable (touchCells initialState [(0, 0)]) ∧
    (getCellValue (touchCells initialState [(0, 0)]) 0 0).1 =
      pickCacheValue 0 0 :=
  ⟨Relation.ReflTransGen.single (Step.touch initialState [(0, 0)]),
   c9_memo_refines_generator
     (Relation.ReflTransGen.single (Step.touch initialState [(0, 0)])) 0 0⟩

/-- C10: in every reachable state, every entry present in the overlay map
has pickedUp = true — no operation ever stores an entry with pickedUp
false. -/
theorem c10_overlay_entries_pickedUp {s : GameState} (h : Reachable s) :
    ∀ p ∈ s.modifiedCacheState, p.2.pickedUp = true :=
  (reachable_stateInv h).1

/-- C10 witness: the invariant at the state reached by a pickup attempt at
cell (0,4) from the initial state. -/
theorem c10_witness :
    Reachable (handleCachePickup initialState 0 4).2.2 ∧
    ∀ p ∈ (handleCachePickup initialState 0 4).2.2.modifiedCacheState,
      p.2.pickedUp = true :=
  ⟨Relation.ReflTransGen.single (Step.pickup initialState 0 4),
   c10_overlay_entries_pickedUp
     (Relation.ReflTransGen.single (Step.pickup initialState 0 4))⟩
